import Mathlib

/-!
# DoodleScreen: the annotation surface of `vday_camera_expo`

A shallow embedding of the state and event handlers of
`src/vday_camera_expo/DoodleScreen.js`.

The component keeps five pieces of React state (`strokes`, `currentColor`,
`textLabel`, `editingText`, `textDraft`) and two mutable refs that take part in
the logic (`colorRef`, `currentPath`).  A handler is modelled as a function from
the state before the event to the state after it: the functional updaters passed
to `setStrokes` and `setTextLabel` are applied to the previous value, and a
handler has run to completion (its updaters included) before the next event is
handled.  That is the behaviour when React renders after every event.

React may also handle several events before it renders.  The updaters given to
`setStrokes` are closures that read `currentPath.current` and `colorRef.current`
when they run, not when they are queued, so for a whole drawing gesture the
moment of the render matters.  The section on batched updates models this: the
drawing handlers change the refs at once and queue their updaters, and a render
runs the queue against the refs as they are then.  The handlers of the first
model are the batched ones followed by a render.

JavaScript numbers are kept abstract: the handlers divide the window size by a
literal, subtract a literal when rendering, and interpolate numbers into
template strings; nothing else is done with them.
-/

namespace DoodleScreen

/-- Numbers as the handlers use them: `/`, `-`, numeric literals, and the string
conversion performed by a template literal. -/
class JSNumber (ν : Type) extends Div ν, Sub ν, NatCast ν where
  /-- Conversion of a number to a string, as done by a template literal. -/
  toStr : ν → String

/-- Coordinates carried by a native touch event (`locationX`/`locationY` for the
drawing layer, `pageX`/`pageY` for the label). -/
structure Point (ν : Type) where
  x : ν
  y : ν
  deriving DecidableEq

/-- Colours are CSS colour strings. -/
abbrev Color := String

/-- The palette, `COLORS` in the source. -/
def COLORS : List Color :=
  ["#FFFFFF", "#FF1744", "#FF80AB", "#FFEB3B", "#2979FF", "#00E676"]

/-- One element of the `strokes` array: `{ d, color, building }`. -/
structure Stroke where
  d : String
  color : Color
  building : Bool
  deriving DecidableEq, Repr

/-- The value of `textLabel` when it is not `null`: `{ x, y, text, color }`. -/
structure TextLabel (ν : Type) where
  x : ν
  y : ν
  text : String
  color : Color
  deriving DecidableEq

/-- Result of `Dimensions.get('window')`: `SCREEN_W` and `SCREEN_H`. -/
structure Dimensions (ν : Type) where
  SCREEN_W : ν
  SCREEN_H : ν

/-- State of one mounted `DoodleScreen`: the `useState` cells followed by the
two refs `colorRef.current` and `currentPath.current`. -/
structure State (ν : Type) where
  strokes : List Stroke
  currentColor : Color
  textLabel : Option (TextLabel ν)
  editingText : Bool
  textDraft : String
  colorRef : Color
  currentPath : String

/-- State right after mounting: `useState([])`, `useState(COLORS[0])`,
`useState(null)`, `useState(false)`, `useState('')`, `useRef(currentColor)`,
`useRef('')`. -/
def init (ν : Type) : State ν :=
  { strokes := []
    currentColor := COLORS.get ⟨0, by decide⟩
    textLabel := none
    editingText := false
    textDraft := ""
    colorRef := COLORS.get ⟨0, by decide⟩
    currentPath := "" }

/-! ## JavaScript library functions used by the handlers -/

/-- `Array.prototype.slice(start, end)`: negative arguments count from the end,
both are clamped to `[0, length]`, and the result holds the elements from
`start` up to, not including, `end`. -/
def slice {α : Type} (xs : List α) (start stop : Int) : List α :=
  let len : Int := xs.length
  let k : Int := if start < 0 then max (len + start) 0 else min start len
  let fin : Int := if stop < 0 then max (len + stop) 0 else min stop len
  (xs.drop k.toNat).take (fin - k).toNat

/-- Code points removed by `String.prototype.trim`: ECMAScript `WhiteSpace`
(TAB, VT, FF, SP, NBSP, ZWNBSP and the category `Zs`) and `LineTerminator`
(LF, CR, LS, PS). -/
def isTrimChar (c : Char) : Bool :=
  let n := c.toNat
  n == 0x09 || n == 0x0A || n == 0x0B || n == 0x0C || n == 0x0D || n == 0x20 ||
  n == 0xA0 || n == 0x1680 || (0x2000 ≤ n && n ≤ 0x200A) || n == 0x2028 ||
  n == 0x2029 || n == 0x202F || n == 0x205F || n == 0x3000 || n == 0xFEFF

/-- `String.prototype.trim`: strips leading and trailing white space and line
terminators. -/
def trim (s : String) : String :=
  ⟨((s.data.dropWhile isTrimChar).reverse.dropWhile isTrimChar).reverse⟩

/-- Truthiness of a string in a condition: every string but the empty one. -/
def truthy (s : String) : Bool :=
  !(s.data.isEmpty)

/-! ## Handlers -/

section Handlers

variable {ν : Type} [JSNumber ν]

/-- `updateColor(c)`: sets the `currentColor` state and mirrors it in
`colorRef`. -/
def updateColor (s : State ν) (c : Color) : State ν :=
  { s with currentColor := c, colorRef := c }

/-- `panResponder.onPanResponderGrant`: starts the accumulator at the touch
location; the stroke list is not touched. -/
def panResponder.onPanResponderGrant (s : State ν) (p : Point ν) : State ν :=
  { s with currentPath := "M " ++ JSNumber.toStr p.x ++ "," ++ JSNumber.toStr p.y }

/-- The updater passed to `setStrokes` by `onPanResponderMove`, given the values
of `currentPath.current` and `colorRef.current`: the last element is replaced
when it exists and is building, otherwise a new building stroke is pushed.
For the empty array `updated[updated.length - 1]` is `undefined`, which is
falsy. -/
def moveUpdater (path : String) (color : Color) (prev : List Stroke) : List Stroke :=
  let updated := prev
  match updated[updated.length - 1]? with
  | some last =>
    if last.building then
      updated.set (updated.length - 1) { d := path, color := color, building := true }
    else
      updated ++ [{ d := path, color := color, building := true }]
  | none => updated ++ [{ d := path, color := color, building := true }]

/-- `panResponder.onPanResponderMove` with its updater run before any other
handler: extends the accumulator by a line-to segment and stores the accumulated
path in the stroke list. -/
def panResponder.onPanResponderMove (s : State ν) (p : Point ν) : State ν :=
  let path := s.currentPath ++ (" L " ++ JSNumber.toStr p.x ++ "," ++ JSNumber.toStr p.y)
  { s with
    currentPath := path
    strokes := moveUpdater path s.colorRef s.strokes }

/-- The function mapped over the strokes on release:
`s.building ? { d: s.d, color: s.color, building: false } : s`. -/
def finalize (s : Stroke) : Stroke :=
  if s.building then { d := s.d, color := s.color, building := false } else s

/-- `panResponder.onPanResponderRelease`: marks every building stroke as done and
clears the accumulator. -/
def panResponder.onPanResponderRelease (s : State ν) : State ν :=
  { s with
    strokes := s.strokes.map finalize
    currentPath := "" }

/-- `textPanResponder.onPanResponderMove`:
`setTextLabel((prev) => (prev ? { ...prev, x: pageX, y: pageY } : prev))`. -/
def textPanResponder.onPanResponderMove (s : State ν) (p : Point ν) : State ν :=
  { s with
    textLabel :=
      match s.textLabel with
      | some prev => some { prev with x := p.x, y := p.y }
      | none => none }

/-- `undo`: `setStrokes((prev) => prev.slice(0, -1))`. -/
def undo (s : State ν) : State ν :=
  { s with strokes := slice s.strokes 0 (-1) }

/-- `addTextLabel`: clears the draft and opens the text editing overlay (the
delayed focus of the input has no effect on the state). -/
def addTextLabel (s : State ν) : State ν :=
  { s with textDraft := "", editingText := true }

/-- `onChangeText={setTextDraft}` of the text input. -/
def setTextDraft (s : State ν) (t : String) : State ν :=
  { s with textDraft := t }

/-- `confirmText`: leaves text editing and, when the trimmed draft is not empty,
places a label at `(SCREEN_W / 2, SCREEN_H / 3)` in the colour of `colorRef`. -/
def confirmText (dims : Dimensions ν) (s : State ν) : State ν :=
  let s1 := { s with editingText := false }
  if truthy (trim s.textDraft) then
    { s1 with
      textLabel := some
        { x := dims.SCREEN_W / ((2 : Nat) : ν)
          y := dims.SCREEN_H / ((3 : Nat) : ν)
          text := trim s.textDraft
          color := s.colorRef } }
  else s1

/-- `removeTextLabel`: `setTextLabel(null)`. -/
def removeTextLabel (s : State ν) : State ν :=
  { s with textLabel := none }

/-! ## Events -/

/-- What the user can do to a mounted screen. -/
inductive Event (ν : Type) where
  | grant (p : Point ν)
  | move (p : Point ν)
  | release
  | textMove (p : Point ν)
  | undo
  | updateColor (c : Color)
  | addTextLabel
  | setTextDraft (t : String)
  | confirmText
  | removeTextLabel

/-- Effect of one event on the state. -/
def step (dims : Dimensions ν) (s : State ν) : Event ν → State ν
  | .grant p => panResponder.onPanResponderGrant s p
  | .move p => panResponder.onPanResponderMove s p
  | .release => panResponder.onPanResponderRelease s
  | .textMove p => textPanResponder.onPanResponderMove s p
  | .undo => undo s
  | .updateColor c => updateColor s c
  | .addTextLabel => addTextLabel s
  | .setTextDraft t => setTextDraft s t
  | .confirmText => confirmText dims s
  | .removeTextLabel => removeTextLabel s

/-- Effect of a sequence of events, handled in order, the updaters of each one
run before the next is handled. -/
def run (dims : Dimensions ν) (s : State ν) (es : List (Event ν)) : State ν :=
  es.foldl (step dims) s

end Handlers

/-! ## Vocabulary of the properties -/

section Vocabulary

variable {ν : Type} [JSNumber ν]

/-- The text `" L x,y"` of one line-to segment. -/
def lineTo (p : Point ν) : String :=
  " L " ++ JSNumber.toStr p.x ++ "," ++ JSNumber.toStr p.y

/-- The text `"M x0,y0 L x1,y1 ... L xn,yn"` for the points `p0, p1, ..., pn`:
the move-to of the first point followed by one line-to per further point, in
the order of the list. -/
def pathEncoding (p0 : Point ν) (ps : List (Point ν)) : String :=
  "M " ++ JSNumber.toStr p0.x ++ "," ++ JSNumber.toStr p0.y ++
    ps.foldr (fun p rest => lineTo p ++ rest) ""

/-- Holds when a building stroke can only sit at the last index of the list. -/
def OnlyLastBuilding (l : List Stroke) : Prop :=
  ∀ (i : Nat) (st : Stroke), l[i]? = some st → st.building = true → i + 1 = l.length

/-- The events of the drawing touch layer: pointer-down, pointer-move and
pointer-up. -/
def Event.isDrawing : Event ν → Bool
  | .grant _ => true
  | .move _ => true
  | .release => true
  | _ => false

end Vocabulary

/-! ## A concrete number type for evaluation -/

/-- Integer-valued numbers, printed in decimal the way JavaScript prints an
integer-valued number.  Division is exact only on exact quotients; it is used
below on `400 / 2` and `900 / 3` alone. -/
instance : JSNumber Int where
  div := Int.tdiv
  sub := Int.sub
  natCast := Int.ofNat
  toStr := fun n => toString n

/-- A window of 400 by 900. -/
def sampleDims : Dimensions Int := ⟨400, 900⟩

/-- A mounted screen in the middle of a gesture: after pointer-down at
`(10, 10)` and one pointer-move to `(30, 30)`. -/
def midGesture : State Int :=
  run sampleDims (init Int) [.grant ⟨10, 10⟩, .move ⟨30, 30⟩]

/-- A mounted screen with one completed stroke and a second gesture under way:
after down `(1, 1)`, move `(2, 2)`, up, down `(5, 5)`, move `(6, 6)`. -/
def secondGesture : State Int :=
  run sampleDims (init Int)
    [.grant ⟨1, 1⟩, .move ⟨2, 2⟩, .release, .grant ⟨5, 5⟩, .move ⟨6, 6⟩]

/-! ## Batched updates of the stroke list -/

section BatchedUpdates

variable {ν : Type} [JSNumber ν]

/-- The updaters that the drawing handlers pass to `setStrokes`. -/
inductive StrokesUpdate where
  | move
  | release
  deriving DecidableEq, Repr

/-- Running a queued updater on `prev`, with the values that
`currentPath.current` and `colorRef.current` have when it runs: the updater of
`onPanResponderMove` reads both refs, the one of `onPanResponderRelease` maps
`finalize` and reads neither. -/
def StrokesUpdate.apply (path : String) (color : Color) (prev : List Stroke) :
    StrokesUpdate → List Stroke
  | .move => moveUpdater path color prev
  | .release => prev.map finalize

/-- A mounted screen between renders: `state` holds the state of the last render
and the current refs, `queue` the `setStrokes` updaters not yet run, oldest
first. -/
structure Batched (ν : Type) where
  state : State ν
  queue : List StrokesUpdate

/-- `panResponder.onPanResponderGrant` between renders: assigns
`currentPath.current`. -/
def Batched.onPanResponderGrant (t : Batched ν) (p : Point ν) : Batched ν :=
  { t with
    state :=
      { t.state with
        currentPath := "M " ++ JSNumber.toStr p.x ++ "," ++ JSNumber.toStr p.y } }

/-- `panResponder.onPanResponderMove` between renders: appends the segment to
`currentPath.current` and queues its updater. -/
def Batched.onPanResponderMove (t : Batched ν) (p : Point ν) : Batched ν :=
  { state :=
      { t.state with
        currentPath :=
          t.state.currentPath ++ (" L " ++ JSNumber.toStr p.x ++ "," ++ JSNumber.toStr p.y) }
    queue := t.queue ++ [StrokesUpdate.move] }

/-- `panResponder.onPanResponderRelease` between renders: queues its updater,
then clears `currentPath.current`. -/
def Batched.onPanResponderRelease (t : Batched ν) : Batched ν :=
  { state := { t.state with currentPath := "" }
    queue := t.queue ++ [StrokesUpdate.release] }

/-- A render: the queued updaters run in order on the stroke list, each reading
the refs as they are now, and the queue is emptied. -/
def Batched.render (t : Batched ν) : Batched ν :=
  { state :=
      { t.state with
        strokes :=
          t.queue.foldl
            (fun prev u => StrokesUpdate.apply t.state.currentPath t.state.colorRef prev u)
            t.state.strokes }
    queue := [] }

/-- Drawing events and renders, in the order in which they happen. -/
inductive BatchedEvent (ν : Type) where
  | grant (p : Point ν)
  | move (p : Point ν)
  | release
  | render

/-- Effect of one drawing event or render. -/
def Batched.step (t : Batched ν) : BatchedEvent ν → Batched ν
  | .grant p => t.onPanResponderGrant p
  | .move p => t.onPanResponderMove p
  | .release => t.onPanResponderRelease
  | .render => t.render

/-- Effect of a sequence of drawing events and renders. -/
def Batched.run (t : Batched ν) (es : List (BatchedEvent ν)) : Batched ν :=
  es.foldl Batched.step t

/-- Holds of pointer-moves and renders, the events that may happen between
pointer-down and pointer-up. -/
def BatchedEvent.isMoveOrRender : BatchedEvent ν → Bool
  | .move _ => true
  | .render => true
  | _ => false

/-- The point of a pointer-move. -/
def BatchedEvent.movePoint? : BatchedEvent ν → Option (Point ν)
  | .move p => some p
  | _ => none

/-- The points of the pointer-moves of a sequence, in order. -/
def movePoints (es : List (BatchedEvent ν)) : List (Point ν) :=
  es.filterMap BatchedEvent.movePoint?

end BatchedUpdates

/-! ## The captured canvas -/

section Rendering

variable {ν : Type} [JSNumber ν]

/-- One `<Path>` element of the SVG display layer. -/
structure PathOverlay where
  d : String
  stroke : Color
  strokeWidth : Nat
  fill : String
  strokeLinecap : String
  strokeLinejoin : String
  deriving DecidableEq, Repr

/-- The wrapper `<View>` of the text label with the `<Text>` inside it: the
style of the wrapper gives `left` and `top` (its width is 200 and its content is
centred), the text carries `color` and the string. -/
structure LabelOverlay (ν : Type) where
  left : ν
  top : ν
  color : Color
  text : String
  deriving DecidableEq

/-- Children of the `<View ref={canvasRef}>`, in order: the photo, the SVG layer
of size `SCREEN_W` by `SCREEN_H` with its paths, the label wrapper when there is
a label, and the transparent drawing touch layer when no text is being
edited. -/
structure Canvas (ν : Type) where
  photo : String
  svgWidth : ν
  svgHeight : ν
  paths : List PathOverlay
  label : Option (LabelOverlay ν)
  touchLayer : Bool

/-- The element rendered for one stroke by `strokes.map((stroke, i) => <Path ... />)`. -/
def renderPath (stroke : Stroke) : PathOverlay :=
  { d := stroke.d
    stroke := stroke.color
    strokeWidth := 4
    fill := "none"
    strokeLinecap := "round"
    strokeLinejoin := "round" }

/-- The view that `handleDone` hands to `captureRef`: what the component renders
under `canvasRef` for the photo `photoUri` in state `s`. -/
def canvas (photoUri : String) (dims : Dimensions ν) (s : State ν) : Canvas ν :=
  { photo := photoUri
    svgWidth := dims.SCREEN_W
    svgHeight := dims.SCREEN_H
    paths := s.strokes.map renderPath
    label :=
      match s.textLabel with
      | some textLabel =>
        some { left := textLabel.x - ((100 : Nat) : ν)
               top := textLabel.y - ((20 : Nat) : ν)
               color := textLabel.color
               text := textLabel.text }
      | none => none
    touchLayer := !s.editingText }

end Rendering

/-- The middle of a gesture after red was picked from the palette: the state
`midGesture` followed by `updateColor('#FF1744')`. -/
def recoloured : State Int :=
  updateColor midGesture "#FF1744"

/-- One completed three-point stroke and the label `"Hi"`: after down `(10, 10)`,
move `(30, 30)`, move `(50, 50)`, up, then the text entry opened, `"Hi"` typed and
confirmed. -/
def annotated : State Int :=
  run sampleDims (init Int)
    [.grant ⟨10, 10⟩, .move ⟨30, 30⟩, .move ⟨50, 50⟩, .release,
     .addTextLabel, .setTextDraft "Hi", .confirmText]

end DoodleScreen

namespace DoodleScreen

/-! ## Auxiliary facts -/

section Lemmas

variable {ν : Type} [JSNumber ν]

theorem slice_zero_neg_one {α : Type} (xs : List α) :
    slice xs 0 (-1) = xs.take (xs.length - 1) := by
  have h1 : (min (0 : Int) (xs.length : Int)).toNat = 0 := by omega
  have h2 : (max ((xs.length : Int) + -1) 0 - min 0 (xs.length : Int)).toNat
      = xs.length - 1 := by omega
  simp only [slice, lt_self_iff_false, if_false, Int.reduceNeg, Int.reduceLT, if_true, h1, h2,
    List.drop_zero]

theorem getElem?_length_sub_one (l : List Stroke) :
    l[l.length - 1]? = l.getLast? := by
  rw [List.getLast?_eq_getElem?]

theorem moveUpdater_append_building (path : String) (c : Color) (base : List Stroke)
    (b : Stroke) (hb : b.building = true) :
    moveUpdater path c (base ++ [b]) = base ++ [{ d := path, color := c, building := true }] := by
  simp [moveUpdater, hb]

theorem moveUpdater_of_last_done (path : String) (c : Color) (l : List Stroke)
    (h : ∀ st, l.getLast? = some st → st.building = false) :
    moveUpdater path c l = l ++ [{ d := path, color := c, building := true }] := by
  unfold moveUpdater
  simp only [getElem?_length_sub_one]
  cases hl : l.getLast? with
  | none => rfl
  | some st => simp [h st hl]

theorem map_finalize_of_done (l : List Stroke) (h : ∀ st ∈ l, st.building = false) :
    l.map finalize = l := by
  induction l with
  | nil => rfl
  | cons a t ih =>
    have ha : a.building = false := h a (List.mem_cons_self a t)
    have ht : ∀ st ∈ t, st.building = false := fun st hst => h st (List.mem_cons_of_mem a hst)
    simp [finalize, ha, ih ht]

theorem trim_eq_empty_of_all (s : String) (h : ∀ c ∈ s.data, isTrimChar c = true) :
    trim s = "" := by
  have hd : s.data.dropWhile isTrimChar = [] := List.dropWhile_eq_nil_iff.mpr h
  simp [trim, hd]

theorem truthy_of_ne_empty (s : String) (h : s ≠ "") : truthy s = true := by
  have hd : s.data ≠ [] := fun hnil => h (String.ext hnil)
  cases hs : s.data with
  | nil => exact absurd hs hd
  | cons a t => simp [truthy, hs]

/-- The ref `colorRef` mirrors the `currentColor` state: every handler keeps the
two equal. -/
theorem step_colorRef (dims : Dimensions ν) (s : State ν) (e : Event ν)
    (h : s.colorRef = s.currentColor) :
    (step dims s e).colorRef = (step dims s e).currentColor := by
  cases e <;>
    simp only [step, panResponder.onPanResponderGrant, panResponder.onPanResponderMove,
      panResponder.onPanResponderRelease, textPanResponder.onPanResponderMove, undo,
      updateColor, addTextLabel, setTextDraft, removeTextLabel, h]
  · simp only [confirmText]
    split <;> exact h

theorem run_colorRef (dims : Dimensions ν) (es : List (Event ν)) :
    ∀ s : State ν, s.colorRef = s.currentColor →
      (run dims s es).colorRef = (run dims s es).currentColor := by
  induction es with
  | nil => intro s h; exact h
  | cons e es ih => intro s h; exact ih (step dims s e) (step_colorRef dims s e h)

theorem moveUpdater_cases (path : String) (c : Color) (l : List Stroke) :
    (moveUpdater path c l = l ++ [{ d := path, color := c, building := true }] ∧
        ∀ st, l.getLast? = some st → st.building = false) ∨
      ∃ base b, l = base ++ [b] ∧ b.building = true ∧
        moveUpdater path c l = base ++ [{ d := path, color := c, building := true }] := by
  cases hl : l.getLast? with
  | none =>
    left
    refine ⟨moveUpdater_of_last_done _ _ _ ?_, ?_⟩ <;> simp [hl]
  | some b =>
    obtain ⟨base, rfl⟩ := List.getLast?_eq_some_iff.mp hl
    cases hb : b.building with
    | false =>
      left
      have hdone : ∀ st, (base ++ [b]).getLast? = some st → st.building = false := by
        intro st hst
        rw [hl] at hst
        cases hst
        exact hb
      refine ⟨moveUpdater_of_last_done _ _ _ hdone, ?_⟩
      intro st hst
      cases hst
      exact hb
    | true =>
      right
      exact ⟨base, b, rfl, hb, moveUpdater_append_building _ _ _ _ hb⟩

theorem all_done_of_dropLast_done (l : List Stroke)
    (h : ∀ st ∈ l.dropLast, st.building = false)
    (hlast : ∀ st, l.getLast? = some st → st.building = false) :
    ∀ st ∈ l, st.building = false := by
  cases hl : l.getLast? with
  | none =>
    intro st hst
    rw [List.getLast?_eq_none_iff.mp hl] at hst
    cases hst
  | some b =>
    obtain ⟨base, rfl⟩ := List.getLast?_eq_some_iff.mp hl
    intro st hst
    rcases List.mem_append.mp hst with hm | hm
    · exact h st (by simpa using hm)
    · rw [List.mem_singleton.mp hm]
      exact hlast b hl

theorem moveUpdater_dropLast_done (path : String) (c : Color) (l : List Stroke)
    (h : ∀ st ∈ l.dropLast, st.building = false) :
    ∀ st ∈ (moveUpdater path c l).dropLast, st.building = false := by
  rcases moveUpdater_cases path c l with ⟨heq, hlast⟩ | ⟨base, b, hl, -, heq⟩
  · rw [heq, List.dropLast_concat]
    exact all_done_of_dropLast_done l h hlast
  · rw [heq, List.dropLast_concat]
    intro st hst
    exact h st (by rw [hl, List.dropLast_concat]; exact hst)

theorem finalize_done (st : Stroke) : (finalize st).building = false := by
  unfold finalize
  split
  · rfl
  · simpa using ‹¬ st.building = true›

theorem finalize_of_done (st : Stroke) (h : st.building = false) : finalize st = st := by
  simp [finalize, h]

theorem step_dropLast_done (dims : Dimensions ν) (s : State ν) (e : Event ν)
    (h : ∀ st ∈ s.strokes.dropLast, st.building = false) :
    ∀ st ∈ (step dims s e).strokes.dropLast, st.building = false := by
  cases e with
  | move p => exact moveUpdater_dropLast_done _ _ _ h
  | release =>
    intro st hst
    have hm : st ∈ s.strokes.map finalize := List.mem_of_mem_dropLast hst
    obtain ⟨a, -, rfl⟩ := List.mem_map.mp hm
    exact finalize_done a
  | undo =>
    intro st hst
    have hu : (undo s).strokes = s.strokes.dropLast := by
      simp [undo, slice_zero_neg_one, List.dropLast_eq_take]
    have hst2 : st ∈ (s.strokes.dropLast).dropLast := by
      simpa [step, hu] using hst
    exact h st (List.mem_of_mem_dropLast hst2)
  | confirmText =>
    have hc : (confirmText dims s).strokes = s.strokes := by
      simp only [confirmText]
      split <;> rfl
    intro st hst
    exact h st (by simpa [step, hc] using hst)
  | _ => exact h

theorem run_dropLast_done (dims : Dimensions ν) (es : List (Event ν)) :
    ∀ s : State ν, (∀ st ∈ s.strokes.dropLast, st.building = false) →
      ∀ st ∈ (run dims s es).strokes.dropLast, st.building = false := by
  induction es with
  | nil => intro s h; exact h
  | cons e es ih => intro s h; exact ih (step dims s e) (step_dropLast_done dims s e h)

theorem onlyLastBuilding_of_dropLast_done (l : List Stroke)
    (h : ∀ st ∈ l.dropLast, st.building = false) : OnlyLastBuilding l := by
  intro i st hi hb
  have hlt : i < l.length := (List.getElem?_eq_some.mp hi).1
  by_contra hne
  have hmem : st ∈ l.dropLast := by
    have hget : l.dropLast[i]? = some st := by
      rw [List.dropLast_eq_take, List.getElem?_take_of_lt (by omega)]
      exact hi
    exact List.getElem?_mem hget
  rw [h st hmem] at hb
  cases hb

theorem countP_building_le_one (l : List Stroke)
    (h : ∀ st ∈ l.dropLast, st.building = false) :
    l.countP (fun st => st.building) ≤ 1 := by
  cases hl : l.getLast? with
  | none =>
    rw [List.getLast?_eq_none_iff.mp hl]
    simp
  | some b =>
    obtain ⟨base, rfl⟩ := List.getLast?_eq_some_iff.mp hl
    have hbase : base.countP (fun st => st.building) = 0 := by
      rw [List.countP_eq_zero]
      intro st hst
      simp [h st (by simpa using hst)]
    rw [List.countP_append, hbase]
    by_cases hb : b.building = true <;> simp [List.countP_cons, hb]

theorem moveUpdater_getElem?_of_done (path : String) (c : Color) (l : List Stroke)
    (i : Nat) (st : Stroke) (hi : l[i]? = some st) (hst : st.building = false) :
    (moveUpdater path c l)[i]? = some st := by
  have hlt : i < l.length := (List.getElem?_eq_some.mp hi).1
  rcases moveUpdater_cases path c l with ⟨heq, -⟩ | ⟨base, b, hl, hb, heq⟩
  · rw [heq, List.getElem?_append_left hlt]
    exact hi
  · rw [heq]
    subst hl
    by_cases hlt2 : i < base.length
    · rw [List.getElem?_append_left hlt2] at hi ⊢
      exact hi
    · have hieq : i = base.length := by
        simp only [List.length_append, List.length_singleton] at hlt
        omega
      subst hieq
      rw [List.getElem?_concat_length] at hi
      cases hi
      rw [hb] at hst
      cases hst

theorem moveUpdater_length (path : String) (c : Color) (l : List Stroke) :
    l.length ≤ (moveUpdater path c l).length ∧
      (moveUpdater path c l).length ≤ l.length + 1 := by
  rcases moveUpdater_cases path c l with ⟨heq, -⟩ | ⟨base, b, hl, -, heq⟩
  · rw [heq]; simp
  · rw [heq, hl]; simp

theorem append_ne_empty (a b : String) (h : 0 < a.length) : a ++ b ≠ "" := by
  intro hab
  have hlen : (a ++ b).length = 0 := by rw [hab]; rfl
  rw [String.length_append] at hlen
  omega

theorem append_ne_empty_right (a b : String) (h : 0 < b.length) : a ++ b ≠ "" := by
  intro hab
  have hlen : (a ++ b).length = 0 := by rw [hab]; rfl
  rw [String.length_append] at hlen
  omega

/-- While the accumulator is empty no stroke is building: every handler keeps
this true. -/
theorem step_idle_done (dims : Dimensions ν) (s : State ν) (e : Event ν)
    (h : s.currentPath = "" → ∀ st ∈ s.strokes, st.building = false) :
    (step dims s e).currentPath = "" → ∀ st ∈ (step dims s e).strokes, st.building = false := by
  cases e with
  | grant p =>
    intro hcp
    refine absurd hcp ?_
    simp only [step, panResponder.onPanResponderGrant, String.append_assoc]
    exact append_ne_empty _ _ (by decide)
  | move p =>
    intro hcp
    refine absurd hcp ?_
    simp only [step, panResponder.onPanResponderMove, String.append_assoc]
    exact append_ne_empty_right _ _ (by
      rw [String.length_append]
      exact Nat.add_pos_left (by decide) _)
  | release =>
    intro _ st hst
    obtain ⟨a, -, rfl⟩ := List.mem_map.mp hst
    exact finalize_done a
  | undo =>
    intro hcp st hst
    have hst2 : st ∈ s.strokes.take (s.strokes.length - 1) := by
      simpa [step, undo, slice_zero_neg_one] using hst
    exact h hcp st (List.mem_of_mem_take hst2)
  | confirmText =>
    have hc : (confirmText dims s).strokes = s.strokes ∧
        (confirmText dims s).currentPath = s.currentPath := by
      simp only [confirmText]
      split <;> exact ⟨rfl, rfl⟩
    intro hcp st hst
    simp only [step, hc.1, hc.2] at hcp hst
    exact h hcp st hst
  | _ => exact h

theorem run_idle_done (dims : Dimensions ν) (es : List (Event ν)) :
    ∀ s : State ν, (s.currentPath = "" → ∀ st ∈ s.strokes, st.building = false) →
      (run dims s es).currentPath = "" → ∀ st ∈ (run dims s es).strokes, st.building = false := by
  induction es with
  | nil => intro s h; exact h
  | cons e es ih => intro s h; exact ih (step dims s e) (step_idle_done dims s e h)

/-- On a list that is `base`, or `base` followed by a building stroke, the move
updater gives `base` followed by the new building stroke. -/
theorem moveUpdater_of_shape (path : String) (c : Color) (base l : List Stroke)
    (hbase : ∀ st ∈ base, st.building = false)
    (hl : l = base ∨ ∃ d, l = base ++ [{ d := d, color := c, building := true }]) :
    moveUpdater path c l = base ++ [{ d := path, color := c, building := true }] := by
  rcases hl with rfl | ⟨d, rfl⟩
  · exact moveUpdater_of_last_done _ _ _
      (fun st hst => hbase st (List.mem_of_getLast?_eq_some hst))
  · exact moveUpdater_append_building _ _ _ _ rfl

/-- A queue of move updaters run on such a list. -/
theorem foldl_moves_of_shape (path : String) (c : Color) (base : List Stroke)
    (hbase : ∀ st ∈ base, st.building = false) (q : List StrokesUpdate) :
    ∀ l : List Stroke, (∀ u ∈ q, u = StrokesUpdate.move) →
      (l = base ∨ ∃ d, l = base ++ [{ d := d, color := c, building := true }]) →
      (q = [] → q.foldl (fun prev u => StrokesUpdate.apply path c prev u) l = l) ∧
        (q ≠ [] → q.foldl (fun prev u => StrokesUpdate.apply path c prev u) l =
          base ++ [{ d := path, color := c, building := true }]) := by
  induction q with
  | nil => intro l _ _; exact ⟨fun _ => rfl, fun h => absurd rfl h⟩
  | cons u q ih =>
    intro l hq hl
    refine ⟨fun h => (by cases h), fun _ => ?_⟩
    have hu : u = StrokesUpdate.move := hq u (List.mem_cons_self u q)
    subst hu
    have hq2 : ∀ v ∈ q, v = StrokesUpdate.move := fun v hv => hq v (List.mem_cons_of_mem _ hv)
    have h1 : StrokesUpdate.apply path c l StrokesUpdate.move =
        base ++ [{ d := path, color := c, building := true }] :=
      moveUpdater_of_shape path c base l hbase hl
    have h2 := ih (base ++ [{ d := path, color := c, building := true }]) hq2
      (Or.inr ⟨path, rfl⟩)
    simp only [List.foldl_cons, h1]
    by_cases hqe : q = []
    · exact h2.1 hqe
    · exact h2.2 hqe

/-- Between pointer-down and pointer-up, whatever the renders: the queue holds
move updaters only, the rendered list is `base` with at most the building stroke
of the gesture after it, and with an empty queue that stroke holds the whole
accumulated path. -/
theorem run_moves_and_renders (base : List Stroke) (c : Color) (start : String)
    (hbase : ∀ st ∈ base, st.building = false) (mid : List (BatchedEvent ν)) :
    ∀ (t : Batched ν) (pts : List (Point ν)),
      (∀ e ∈ mid, e.isMoveOrRender = true) →
      (∀ u ∈ t.queue, u = StrokesUpdate.move) →
      t.state.colorRef = c →
      t.state.currentPath = start ++ pts.foldr (fun p rest => lineTo p ++ rest) "" →
      (t.state.strokes = base ∨
        ∃ d, t.state.strokes = base ++ [{ d := d, color := c, building := true }]) →
      (pts = [] → t.queue = [] ∧ t.state.strokes = base) →
      (pts ≠ [] → t.queue = [] →
        t.state.strokes = base ++ [{ d := t.state.currentPath, color := c, building := true }]) →
      (∀ u ∈ (t.run mid).queue, u = StrokesUpdate.move) ∧
        (t.run mid).state.colorRef = c ∧
        (t.run mid).state.currentPath =
          start ++ (pts ++ movePoints mid).foldr (fun p rest => lineTo p ++ rest) "" ∧
        ((t.run mid).state.strokes = base ∨
          ∃ d, (t.run mid).state.strokes = base ++ [{ d := d, color := c, building := true }]) ∧
        (pts ++ movePoints mid = [] → (t.run mid).queue = [] ∧ (t.run mid).state.strokes = base) ∧
        (pts ++ movePoints mid ≠ [] → (t.run mid).queue = [] →
          (t.run mid).state.strokes =
            base ++ [{ d := (t.run mid).state.currentPath, color := c, building := true }]) := by
  induction mid with
  | nil =>
    intro t pts _ hq hc hp hsh h0 h1
    simpa [Batched.run, movePoints] using ⟨hq, hc, hp, hsh, h0, h1⟩
  | cons e mid ih =>
    intro t pts hmid hq hc hp hsh h0 h1
    have hmid2 : ∀ e2 ∈ mid, e2.isMoveOrRender = true :=
      fun e2 he2 => hmid e2 (List.mem_cons_of_mem _ he2)
    have he := hmid e (List.mem_cons_self e mid)
    cases e with
    | grant p => cases he
    | release => cases he
    | move p =>
      have hrun : t.run (BatchedEvent.move p :: mid) = (t.onPanResponderMove p).run mid := rfl
      have hpts : pts ++ movePoints (BatchedEvent.move p :: mid) =
          (pts ++ [p]) ++ movePoints mid := by
        simp [movePoints, BatchedEvent.movePoint?]
      rw [hrun, hpts]
      apply ih (t.onPanResponderMove p) (pts ++ [p]) hmid2
      · intro u hu
        simp only [Batched.onPanResponderMove, List.mem_append, List.mem_singleton] at hu
        rcases hu with hu | hu
        · exact hq u hu
        · exact hu
      · exact hc
      · simp only [Batched.onPanResponderMove, hp, List.foldr_append, List.foldr_cons,
          List.foldr_nil, lineTo]
        have hfold : ∀ (l : List (Point ν)) (tail : String),
            l.foldr (fun p rest => lineTo p ++ rest) tail =
              l.foldr (fun p rest => lineTo p ++ rest) "" ++ tail := by
          intro l tail
          induction l with
          | nil => simp
          | cons a l ihl => simp [List.foldr_cons, ihl, String.append_assoc]
        have h := hfold pts (" L " ++ JSNumber.toStr p.x ++ "," ++ JSNumber.toStr p.y ++ "")
        simp only [lineTo] at h
        rw [h]
        simp [String.append_assoc]
      · exact hsh
      · intro hnil
        simp at hnil
      · intro _ hqe
        simp [Batched.onPanResponderMove] at hqe
    | render =>
      have hrun : t.run (BatchedEvent.render :: mid) = t.render.run mid := rfl
      have hpts : pts ++ movePoints (BatchedEvent.render :: mid) = pts ++ movePoints mid := by
        simp [movePoints, BatchedEvent.movePoint?]
      have hf := foldl_moves_of_shape t.state.currentPath c base hbase t.queue
        t.state.strokes hq hsh
      have hstrokes : t.render.state.strokes =
          t.queue.foldl
            (fun prev u => StrokesUpdate.apply t.state.currentPath c prev u)
            t.state.strokes := by
        simp [Batched.render, hc]
      rw [hrun, hpts]
      apply ih t.render pts hmid2
      · intro u hu
        simp [Batched.render] at hu
      · exact hc
      · exact hp
      · rw [hstrokes]
        by_cases hqe : t.queue = []
        · rw [hf.1 hqe]; exact hsh
        · rw [hf.2 hqe]; exact Or.inr ⟨_, rfl⟩
      · intro hnil
        refine ⟨rfl, ?_⟩
        rw [hstrokes, hf.1 (h0 hnil).1]
        exact (h0 hnil).2
      · intro hne _
        rw [hstrokes]
        by_cases hqe : t.queue = []
        · rw [hf.1 hqe]; exact h1 hne hqe
        · rw [hf.2 hqe]; rfl

end Lemmas

/-! ## Properties of the handlers -/

section Properties

/-- A batched handler followed by a render is the handler of the
render-per-event model. -/
theorem render_grant {ν : Type} [JSNumber ν] (s : State ν) (p : Point ν) :
    ((Batched.mk s []).onPanResponderGrant p).render =
      Batched.mk (panResponder.onPanResponderGrant s p) [] := rfl

theorem render_move {ν : Type} [JSNumber ν] (s : State ν) (p : Point ν) :
    ((Batched.mk s []).onPanResponderMove p).render =
      Batched.mk (panResponder.onPanResponderMove s p) [] := rfl

theorem render_release {ν : Type} (s : State ν) :
    ((Batched.mk s []).onPanResponderRelease).render =
      Batched.mk (panResponder.onPanResponderRelease s) [] := rfl

/-- Claim C1, as the code behaves on a concrete input: on a fresh screen, with
a render after the first pointer-move and none between the second pointer-move
and pointer-up, the gesture down `(10, 10)`, move `(30, 30)`, move `(50, 50)`, up
leaves one completed stroke whose path is the empty string: pointer-up has
cleared the accumulator before the updater of the second move reads it. -/
theorem batched_gesture_loses_path_example :
    (Batched.run (Batched.mk (init Int) [])
        [.grant ⟨10, 10⟩, .move ⟨30, 30⟩, .render, .move ⟨50, 50⟩, .release,
         .render]).state.strokes =
      [{ d := "", color := "#FFFFFF", building := false }] ∧
      pathEncoding (⟨10, 10⟩ : Point Int) [⟨30, 30⟩, ⟨50, 50⟩] = "M 10,10 L 30,30 L 50,50" := by
  decide

/-- Claim C1, amended. From a rendered state in which no stroke is building,
take the gesture pointer-down at `p0`, then pointer-moves with renders anywhere
between them (`mid`, with at least one move), then pointer-up, where a render
happens after the last pointer-move and before pointer-up. Once pointer-up is
rendered, exactly one stroke has been appended to the stroke list: a completed
stroke whose path is `"M x0,y0 L x1,y1 ... L xn,yn"` for `p0` and the moved-to
points in their order, in the colour held by `colorRef`; the strokes that were
there are kept, the accumulator is empty and no updater is left in the queue. -/
theorem gesture_stores_encoded_stroke {ν : Type} [JSNumber ν] (t : Batched ν) (p0 : Point ν)
    (mid : List (BatchedEvent ν)) (hq : t.queue = [])
    (hs : ∀ st ∈ t.state.strokes, st.building = false)
    (hmid : ∀ e ∈ mid, e.isMoveOrRender = true) (hne : movePoints mid ≠ []) :
    (t.run (.grant p0 :: (mid ++ [.render, .release, .render]))).state.strokes =
        t.state.strokes ++
          [{ d := pathEncoding p0 (movePoints mid), color := t.state.colorRef,
             building := false }] ∧
      (t.run (.grant p0 :: (mid ++ [.render, .release, .render]))).state.currentPath = "" ∧
      (t.run (.grant p0 :: (mid ++ [.render, .release, .render]))).queue = [] := by
  have hrun : t.run (.grant p0 :: (mid ++ [.render, .release, .render])) =
      ((((t.onPanResponderGrant p0).run mid).render).onPanResponderRelease).render := by
    simp [Batched.run, Batched.step, List.foldl_append]
  rw [hrun]
  refine ⟨?_, rfl, rfl⟩
  obtain ⟨hqm, hc, hp, hsh, -, h1⟩ :=
    run_moves_and_renders t.state.strokes t.state.colorRef
      ("M " ++ JSNumber.toStr p0.x ++ "," ++ JSNumber.toStr p0.y) hs mid
      (t.onPanResponderGrant p0) [] hmid
      (by intro u hu; simp [Batched.onPanResponderGrant, hq] at hu)
      rfl
      (by simp [Batched.onPanResponderGrant])
      (Or.inl rfl)
      (fun _ => ⟨hq, rfl⟩)
      (fun h => absurd rfl h)
  simp only [List.nil_append] at hp h1
  -- the render after the last move
  have hf := foldl_moves_of_shape ((t.onPanResponderGrant p0).run mid).state.currentPath
    t.state.colorRef t.state.strokes hs ((t.onPanResponderGrant p0).run mid).queue
    ((t.onPanResponderGrant p0).run mid).state.strokes hqm hsh
  have hrendered : (((t.onPanResponderGrant p0).run mid).render).state.strokes =
      t.state.strokes ++
        [{ d := pathEncoding p0 (movePoints mid), color := t.state.colorRef,
           building := true }] := by
    have hd : ((t.onPanResponderGrant p0).run mid).state.currentPath =
        pathEncoding p0 (movePoints mid) := by
      rw [hp]; rfl
    simp only [Batched.render, hc]
    by_cases hqe : ((t.onPanResponderGrant p0).run mid).queue = []
    · rw [hf.1 hqe, h1 hne hqe, hd]
    · rw [hf.2 hqe, hd]
  -- pointer-up and its render
  have hrel : ∀ u : Batched ν, u.queue = [] →
      (u.onPanResponderRelease.render).state.strokes = u.state.strokes.map finalize := by
    intro u hu
    simp [Batched.render, Batched.onPanResponderRelease, hu, StrokesUpdate.apply]
  rw [hrel _ rfl, hrendered, List.map_append, map_finalize_of_done _ hs]
  simp [finalize]

/-- Witness for `gesture_stores_encoded_stroke`: on a fresh screen, down
`(10, 10)`, move `(30, 30)`, move `(50, 50)` with no render between the moves,
then a render, up and a render. -/
theorem gesture_stores_encoded_stroke_witness :
    (Batched.mk (init Int) []).queue = [] ∧
      (∀ st ∈ (Batched.mk (init Int) []).state.strokes, st.building = false) ∧
      (∀ e ∈ [BatchedEvent.move (⟨30, 30⟩ : Point Int), .move ⟨50, 50⟩],
        e.isMoveOrRender = true) ∧
      movePoints [BatchedEvent.move (⟨30, 30⟩ : Point Int), .move ⟨50, 50⟩] ≠ [] ∧
      (Batched.run (Batched.mk (init Int) [])
          (.grant ⟨10, 10⟩ ::
            ([BatchedEvent.move (⟨30, 30⟩ : Point Int), .move ⟨50, 50⟩] ++
              [.render, .release, .render]))).state.strokes =
        [{ d := "M 10,10 L 30,30 L 50,50", color := "#FFFFFF", building := false }] :=
  ⟨rfl, by simp [init], by simp [BatchedEvent.isMoveOrRender],
    by simp [movePoints, BatchedEvent.movePoint?],
    (gesture_stores_encoded_stroke (Batched.mk (init Int) []) ⟨10, 10⟩
      [BatchedEvent.move (⟨30, 30⟩ : Point Int), .move ⟨50, 50⟩] rfl (by simp [init])
      (by simp [BatchedEvent.isMoveOrRender])
      (by simp [movePoints, BatchedEvent.movePoint?])).1.trans (by decide)⟩

/-- Claim C2. Undo keeps exactly the first `N - 1` strokes of a list of `N`
strokes, in their order: a list made of `base` followed by one more stroke
becomes `base`, the result has `N - 1` elements, and undo on the empty stroke
list gives the empty list. -/
theorem undo_keeps_all_but_last {ν : Type} (s : State ν) :
    (undo s).strokes = s.strokes.take (s.strokes.length - 1) ∧
      (undo s).strokes.length = s.strokes.length - 1 ∧
      (∀ (base : List Stroke) (last : Stroke),
        (undo { s with strokes := base ++ [last] }).strokes = base) ∧
      (undo { s with strokes := [] }).strokes = [] := by
  refine ⟨slice_zero_neg_one _, ?_, ?_, ?_⟩
  · simp only [undo, slice_zero_neg_one, List.length_take]
    omega
  · intro base last
    simp [undo, slice_zero_neg_one]
  · simp [undo, slice_zero_neg_one]

/-- Claim C3, as the code behaves on a concrete input: in the middle of a
gesture the stroke list is the single building stroke `"M 10,10 L 30,30"`, and
undo removes it, leaving the empty list. -/
theorem undo_removes_building_stroke_example :
    midGesture.strokes = [{ d := "M 10,10 L 30,30", color := "#FFFFFF", building := true }] ∧
      (undo midGesture).strokes = [] := by
  decide

/-- Claim C3, amended. When the last element of the stroke list is a building
stroke, undo removes that stroke: the result is the list of the strokes before
it, unchanged and in order, and the accumulator is left as it was. -/
theorem undo_removes_building_last {ν : Type} (s : State ν) (base : List Stroke) (b : Stroke)
    (hs : s.strokes = base ++ [b]) (_hb : b.building = true) :
    (undo s).strokes = base ∧ (undo s).currentPath = s.currentPath := by
  refine ⟨?_, rfl⟩
  simp [undo, slice_zero_neg_one, hs]

/-- Witness for `undo_removes_building_last`: the state in the middle of a
gesture. -/
theorem undo_removes_building_last_witness :
    midGesture.strokes =
        [] ++ [({ d := "M 10,10 L 30,30", color := "#FFFFFF", building := true } : Stroke)] ∧
      (undo midGesture).strokes = [] :=
  ⟨by decide,
    (undo_removes_building_last midGesture []
      { d := "M 10,10 L 30,30", color := "#FFFFFF", building := true }
      (by decide) rfl).1⟩

/-- Claim C4, as the code behaves on a concrete input: on a fresh screen (empty
accumulator, no stroke) a pointer-move to `(30, 30)` sets the accumulator to
`" L 30,30"` and adds a building stroke with that path. -/
theorem move_without_open_path_example :
    (init Int).currentPath = "" ∧ (init Int).strokes = [] ∧
      (panResponder.onPanResponderMove (init Int) ⟨30, 30⟩).currentPath = " L 30,30" ∧
      (panResponder.onPanResponderMove (init Int) ⟨30, 30⟩).strokes =
        [{ d := " L 30,30", color := "#FFFFFF", building := true }] := by
  decide

/-- Claim C4, amended. With an empty accumulator a pointer-move to `p` is not
ignored: the accumulator becomes `" L x,y"` and, when the last stroke is not
building (or there is none), a building stroke of that path in the colour of
`colorRef` is appended to the stroke list, the strokes before it being kept.
The last stroke is not building in any state with an empty accumulator that is
reached from the initial state, so there the stroke is always appended. -/
theorem move_without_open_path {ν : Type} [JSNumber ν] (dims : Dimensions ν) (s : State ν)
    (p : Point ν) (h : s.currentPath = "") :
    (panResponder.onPanResponderMove s p).currentPath = lineTo p ∧
      ((∀ st, s.strokes.getLast? = some st → st.building = false) →
        (panResponder.onPanResponderMove s p).strokes =
          s.strokes ++ [{ d := lineTo p, color := s.colorRef, building := true }]) ∧
      ((∃ es : List (Event ν), s = run dims (init ν) es) →
        (panResponder.onPanResponderMove s p).strokes =
          s.strokes ++ [{ d := lineTo p, color := s.colorRef, building := true }]) := by
  have hp : s.currentPath ++ (" L " ++ JSNumber.toStr p.x ++ "," ++ JSNumber.toStr p.y)
      = lineTo p := by
    rw [h]; simp [lineTo]
  have happ : (∀ st, s.strokes.getLast? = some st → st.building = false) →
      (panResponder.onPanResponderMove s p).strokes =
        s.strokes ++ [{ d := lineTo p, color := s.colorRef, building := true }] := by
    intro hlast
    simp only [panResponder.onPanResponderMove, hp]
    exact moveUpdater_of_last_done _ _ _ hlast
  refine ⟨hp, happ, ?_⟩
  rintro ⟨es, hes⟩
  apply happ
  intro st hst
  have hdone : ∀ st ∈ s.strokes, st.building = false := by
    rw [hes] at h ⊢
    exact run_idle_done dims es (init ν) (fun _ st hst => by simp [init] at hst) h
  exact hdone st (List.mem_of_getLast?_eq_some hst)

/-- Witness for `move_without_open_path`: a fresh screen and the point
`(30, 30)`. -/
theorem move_without_open_path_witness :
    (init Int).currentPath = "" ∧
      (∀ st, (init Int).strokes.getLast? = some st → st.building = false) ∧
      (∃ es : List (Event Int), init Int = run sampleDims (init Int) es) ∧
      (panResponder.onPanResponderMove (init Int) ⟨30, 30⟩).strokes =
        (init Int).strokes ++
          [{ d := lineTo (⟨30, 30⟩ : Point Int), color := (init Int).colorRef,
             building := true }] :=
  ⟨rfl, by simp [init], ⟨[], rfl⟩,
    (move_without_open_path sampleDims (init Int) ⟨30, 30⟩ rfl).2.1 (by simp [init])⟩

/-- Claim C5. When the draft is empty or made only of characters that `trim`
strips, `confirmText` leaves the label as it was (absent or present), leaves the
stroke list as it was, and leaves text entry (`editingText = false`). -/
theorem confirmText_blank_draft {ν : Type} [JSNumber ν] (dims : Dimensions ν) (s : State ν)
    (h : ∀ c ∈ s.textDraft.data, isTrimChar c = true) :
    (confirmText dims s).textLabel = s.textLabel ∧
      (confirmText dims s).strokes = s.strokes ∧
      (confirmText dims s).editingText = false := by
  have ht : truthy (trim s.textDraft) = false := by
    rw [trim_eq_empty_of_all _ h]; rfl
  simp [confirmText, ht]

/-- Witness for `confirmText_blank_draft`: the draft is a space, a tab and a
line feed, typed on a fresh screen. -/
theorem confirmText_blank_draft_witness :
    (∀ c ∈ (setTextDraft (init Int) " \t\n").textDraft.data, isTrimChar c = true) ∧
      (confirmText sampleDims (setTextDraft (init Int) " \t\n")).textLabel = none :=
  ⟨by decide,
    (confirmText_blank_draft sampleDims (setTextDraft (init Int) " \t\n") (by decide)).1⟩

/-- Claim C6. When the trimmed draft is not empty, `confirmText` sets the label
to `{ x = SCREEN_W / 2, y = SCREEN_H / 3, text = trimmed draft, color = colorRef }`
and leaves text entry. The label depends on the draft and the colour alone: any
state with the same draft and colour gets the same label, whatever label it had
before; after create then remove the label is absent and a further create gives
the label of a first-time create. In every state reached from the initial one,
`colorRef` is the selected colour `currentColor`. -/
theorem confirmText_places_label {ν : Type} [JSNumber ν] (dims : Dimensions ν) (s : State ν)
    (h : trim s.textDraft ≠ "") :
    (confirmText dims s).textLabel =
        some { x := dims.SCREEN_W / ((2 : Nat) : ν), y := dims.SCREEN_H / ((3 : Nat) : ν),
               text := trim s.textDraft, color := s.colorRef } ∧
      (confirmText dims s).editingText = false ∧
      (∀ s2 : State ν, s2.textDraft = s.textDraft → s2.colorRef = s.colorRef →
        (confirmText dims s2).textLabel = (confirmText dims s).textLabel) ∧
      (removeTextLabel (confirmText dims s)).textLabel = none ∧
      (confirmText dims (removeTextLabel (confirmText dims s))).textLabel =
        (confirmText dims { s with textLabel := none }).textLabel ∧
      (∀ es : List (Event ν),
        (run dims (init ν) es).colorRef = (run dims (init ν) es).currentColor) := by
  have ht : truthy (trim s.textDraft) = true := truthy_of_ne_empty _ h
  refine ⟨?_, ?_, ?_, rfl, ?_, ?_⟩
  · simp [confirmText, ht]
  · simp [confirmText, ht]
  · intro s2 hd hc
    simp [confirmText, ht, hd, hc]
  · simp [confirmText, removeTextLabel, ht]
  · intro es
    exact run_colorRef dims es (init ν) rfl

/-- Witness for `confirmText_places_label`: the draft `"  Hi "` on a window of
400 by 900 gives the label `"Hi"` at `(200, 300)` in white. -/
theorem confirmText_places_label_witness :
    trim (setTextDraft (init Int) "  Hi ").textDraft ≠ "" ∧
      (confirmText sampleDims (setTextDraft (init Int) "  Hi ")).textLabel =
        some { x := 200, y := 300, text := "Hi", color := "#FFFFFF" } :=
  ⟨by decide,
    (confirmText_places_label sampleDims (setTextDraft (init Int) "  Hi ") (by decide)).1.trans
      (by decide)⟩

/-- Claim C7. The label drag update at `p` leaves an absent label absent; on an
existing label it sets the position to exactly `p` and keeps text and colour.
Applying it twice with the same `p` gives the same state as applying it once. -/
theorem label_drag_sets_position {ν : Type} (s : State ν) (p : Point ν) :
    (textPanResponder.onPanResponderMove { s with textLabel := none } p).textLabel = none ∧
      (∀ l : TextLabel ν,
        (textPanResponder.onPanResponderMove { s with textLabel := some l } p).textLabel =
          some { x := p.x, y := p.y, text := l.text, color := l.color }) ∧
      textPanResponder.onPanResponderMove (textPanResponder.onPanResponderMove s p) p =
        textPanResponder.onPanResponderMove s p := by
  refine ⟨rfl, fun l => rfl, ?_⟩
  cases hl : s.textLabel <;> simp [textPanResponder.onPanResponderMove, hl]

/-- Claim C8. In every state reached from the initial state by any sequence of
events (pointer-down, pointer-move, pointer-up, label drag, undo, colour
selection, opening the text entry, typing, confirming, removing the label), a
building stroke can only be the last element of the stroke list, and the list
holds at most one building stroke. -/
theorem at_most_one_building_stroke {ν : Type} [JSNumber ν] (dims : Dimensions ν)
    (es : List (Event ν)) :
    OnlyLastBuilding (run dims (init ν) es).strokes ∧
      (run dims (init ν) es).strokes.countP (fun st => st.building) ≤ 1 := by
  have h : ∀ st ∈ (run dims (init ν) es).strokes.dropLast, st.building = false :=
    run_dropLast_done dims es (init ν) (by simp [init])
  exact ⟨onlyLastBuilding_of_dropLast_done _ h, countP_building_le_one _ h⟩

/-- Claim C9. For every state and every drawing event (pointer-down,
pointer-move, pointer-up): a stroke that is completed before the event is at
the same index after it, with the same path and colour; the list keeps its
length or grows by one, so a new stroke can only sit after the old indices; and
a stroke whose entry differs after the event was building before it, which in a
state where only the last stroke may be building makes it the last one. -/
theorem drawing_event_keeps_completed {ν : Type} [JSNumber ν] (dims : Dimensions ν)
    (s : State ν) (e : Event ν) (he : e.isDrawing = true) :
    (∀ (i : Nat) (st : Stroke), s.strokes[i]? = some st → st.building = false →
        (step dims s e).strokes[i]? = some st) ∧
      (s.strokes.length ≤ (step dims s e).strokes.length ∧
        (step dims s e).strokes.length ≤ s.strokes.length + 1) ∧
      (∀ (i : Nat) (st : Stroke), s.strokes[i]? = some st →
        (step dims s e).strokes[i]? ≠ some st →
          st.building = true ∧ (OnlyLastBuilding s.strokes → i + 1 = s.strokes.length)) := by
  have hkeep : ∀ (i : Nat) (st : Stroke), s.strokes[i]? = some st → st.building = false →
      (step dims s e).strokes[i]? = some st := by
    intro i st hi hst
    cases e with
    | grant p => exact hi
    | move p => exact moveUpdater_getElem?_of_done _ _ _ i st hi hst
    | release =>
      simp only [step, panResponder.onPanResponderRelease, List.getElem?_map, hi,
        Option.map_some', finalize_of_done st hst]
    | _ => cases he
  refine ⟨hkeep, ?_, ?_⟩
  · cases e with
    | grant p => exact ⟨Nat.le_refl _, Nat.le_succ _⟩
    | move p => exact moveUpdater_length _ _ _
    | release => simp [step, panResponder.onPanResponderRelease]
    | _ => cases he
  · intro i st hi hne
    have hb : st.building = true := by
      cases hst : st.building with
      | true => rfl
      | false => exact absurd (hkeep i st hi hst) hne
    exact ⟨hb, fun hinv => hinv i st hi hb⟩

/-- Witness for `drawing_event_keeps_completed`: with one completed stroke and a
second gesture under way, a pointer-move to `(7, 7)` keeps the completed stroke
at index 0 and replaces the building stroke at index 1, the last index. -/
theorem drawing_event_keeps_completed_witness :
    (Event.move (⟨7, 7⟩ : Point Int)).isDrawing = true ∧
      secondGesture.strokes =
        [{ d := "M 1,1 L 2,2", color := "#FFFFFF", building := false },
         { d := "M 5,5 L 6,6", color := "#FFFFFF", building := true }] ∧
      (step sampleDims secondGesture (Event.move ⟨7, 7⟩)).strokes[0]? =
        some { d := "M 1,1 L 2,2", color := "#FFFFFF", building := false } ∧
      (step sampleDims secondGesture (Event.move ⟨7, 7⟩)).strokes[1]? ≠
        some { d := "M 5,5 L 6,6", color := "#FFFFFF", building := true } ∧
      1 + 1 = secondGesture.strokes.length :=
  ⟨rfl, by decide,
    (drawing_event_keeps_completed sampleDims secondGesture (Event.move ⟨7, 7⟩) rfl).1 0
      { d := "M 1,1 L 2,2", color := "#FFFFFF", building := false } (by decide) rfl,
    by decide,
    ((drawing_event_keeps_completed sampleDims secondGesture (Event.move ⟨7, 7⟩) rfl).2.2 1
      { d := "M 5,5 L 6,6", color := "#FFFFFF", building := true } (by decide)
      (by decide)).2
      (onlyLastBuilding_of_dropLast_done _ (by decide))⟩

/-- Claim C10. Pointer-up keeps the length of the stroke list; every stroke of
the result is complete; the stroke at each index has the path and colour it had
before; the accumulator becomes the empty string; and when no stroke was
building the stroke list is unchanged. -/
theorem release_completes_strokes {ν : Type} (s : State ν) :
    (panResponder.onPanResponderRelease s).strokes.length = s.strokes.length ∧
      (∀ st ∈ (panResponder.onPanResponderRelease s).strokes, st.building = false) ∧
      (∀ (i : Nat) (st : Stroke), s.strokes[i]? = some st →
        (panResponder.onPanResponderRelease s).strokes[i]? =
          some { d := st.d, color := st.color, building := false }) ∧
      (panResponder.onPanResponderRelease s).currentPath = "" ∧
      ((∀ st ∈ s.strokes, st.building = false) →
        (panResponder.onPanResponderRelease s).strokes = s.strokes) := by
  refine ⟨by simp [panResponder.onPanResponderRelease], ?_, ?_, rfl, ?_⟩
  · intro st hst
    obtain ⟨a, -, rfl⟩ := List.mem_map.mp hst
    exact finalize_done a
  · intro i st hi
    simp only [panResponder.onPanResponderRelease, List.getElem?_map, hi, Option.map_some']
    cases hb : st.building with
    | true => simp [finalize, hb]
    | false =>
      rw [finalize_of_done st hb]
      cases st
      simp_all
  · intro h
    exact map_finalize_of_done _ h

/-- Witness for `release_completes_strokes`: pointer-up in the middle of a
gesture completes the stroke `"M 10,10 L 30,30"`; pointer-up on a fresh screen
leaves the empty stroke list as it is. -/
theorem release_completes_strokes_witness :
    midGesture.strokes[0]? =
        some { d := "M 10,10 L 30,30", color := "#FFFFFF", building := true } ∧
      (panResponder.onPanResponderRelease midGesture).strokes[0]? =
        some { d := "M 10,10 L 30,30", color := "#FFFFFF", building := false } ∧
      (∀ st ∈ (init Int).strokes, st.building = false) ∧
      (panResponder.onPanResponderRelease (init Int)).strokes = (init Int).strokes :=
  ⟨by decide,
    (release_completes_strokes midGesture).2.2.1 0
      { d := "M 10,10 L 30,30", color := "#FFFFFF", building := true } (by decide),
    by decide,
    (release_completes_strokes (init Int)).2.2.2.2 (by decide)⟩

/-- Claim C11, as the code behaves on a concrete input: on a fresh screen a
pointer-down at `(10, 10)` leaves the stroke list empty and only sets the
accumulator to `"M 10,10"`, and a pointer-down followed directly by pointer-up
leaves the stroke list empty as well. -/
theorem grant_adds_no_stroke_example :
    (init Int).strokes = [] ∧
      (panResponder.onPanResponderGrant (init Int) ⟨10, 10⟩).strokes = [] ∧
      (panResponder.onPanResponderGrant (init Int) ⟨10, 10⟩).currentPath = "M 10,10" ∧
      (run sampleDims (init Int) [.grant ⟨10, 10⟩, .release]).strokes = [] := by
  decide

/-- Claim C11, amended. From a state in which no stroke is building, a
pointer-down at `p` appends nothing: the stroke list is unchanged and the
accumulator becomes the single point `p`. The building stroke, in the colour of
`colorRef` and with the path from `p` to the moved-to point, is appended by the
pointer-move that follows; a pointer-down followed directly by pointer-up leaves
the stroke list as it was. -/
theorem grant_opens_path_only {ν : Type} [JSNumber ν] (dims : Dimensions ν) (s : State ν)
    (p : Point ν) (hs : ∀ st ∈ s.strokes, st.building = false) :
    (panResponder.onPanResponderGrant s p).strokes = s.strokes ∧
      (panResponder.onPanResponderGrant s p).currentPath = pathEncoding p [] ∧
      (run dims s [.grant p, .release]).strokes = s.strokes ∧
      (∀ q : Point ν,
        (run dims s [.grant p, .move q]).strokes =
          s.strokes ++ [{ d := pathEncoding p [q], color := s.colorRef, building := true }]) := by
  refine ⟨rfl, ?_, ?_, ?_⟩
  · simp [panResponder.onPanResponderGrant, pathEncoding]
  · simp only [run, List.foldl, step, panResponder.onPanResponderRelease,
      panResponder.onPanResponderGrant]
    exact map_finalize_of_done _ hs
  · intro q
    have hlast : ∀ st, s.strokes.getLast? = some st → st.building = false :=
      fun st hst => hs st (List.mem_of_getLast?_eq_some hst)
    simp only [run, List.foldl, step, panResponder.onPanResponderMove,
      panResponder.onPanResponderGrant]
    rw [moveUpdater_of_last_done _ _ _ hlast]
    simp [pathEncoding, lineTo, String.append_assoc]

/-- Witness for `grant_opens_path_only`: a fresh screen and a pointer-down at
`(10, 10)`. -/
theorem grant_opens_path_only_witness :
    (∀ st ∈ (init Int).strokes, st.building = false) ∧
      (run sampleDims (init Int) [.grant ⟨10, 10⟩, .release]).strokes = (init Int).strokes :=
  ⟨by decide,
    (grant_opens_path_only sampleDims (init Int) ⟨10, 10⟩ (by decide)).2.2.1⟩

/-- Claim C12, as the code behaves on a concrete input: in the middle of a
gesture the stroke list holds no completed stroke, and the canvas shows one
path, that of the building stroke. -/
theorem canvas_shows_building_stroke_example :
    midGesture.strokes.countP (fun st => !st.building) = 0 ∧
      (canvas "photo" sampleDims midGesture).paths.length = 1 ∧
      (canvas "photo" sampleDims midGesture).paths[0]? = some (renderPath
        { d := "M 10,10 L 30,30", color := "#FFFFFF", building := true }) := by
  decide

/-- Claim C12, amended. The paths of the captured canvas are the strokes of the
list in order, building ones included: there are as many paths as strokes, and
the path at index `i` has the path text and colour of the stroke at index `i`
and stroke width 4. When no stroke is building this is the number of completed
strokes. A label overlay is there exactly when a label exists; it carries the
text and colour of the label, and its wrapper is placed from the position of
the label, at `left = x - 100` and `top = y - 20`. -/
theorem canvas_overlays {ν : Type} [JSNumber ν] (photoUri : String) (dims : Dimensions ν)
    (s : State ν) :
    (canvas photoUri dims s).paths.length = s.strokes.length ∧
      (∀ (i : Nat) (st : Stroke), s.strokes[i]? = some st →
        ∃ o : PathOverlay, (canvas photoUri dims s).paths[i]? = some o ∧
          o.d = st.d ∧ o.stroke = st.color ∧ o.strokeWidth = 4) ∧
      ((∀ st ∈ s.strokes, st.building = false) →
        (canvas photoUri dims s).paths.length = s.strokes.countP (fun st => !st.building)) ∧
      ((canvas photoUri dims s).label.isSome = s.textLabel.isSome) ∧
      (∀ l : TextLabel ν, s.textLabel = some l →
        (canvas photoUri dims s).label =
          some { left := l.x - ((100 : Nat) : ν), top := l.y - ((20 : Nat) : ν),
                 color := l.color, text := l.text }) := by
  refine ⟨by simp [canvas], ?_, ?_, ?_, ?_⟩
  · intro i st hi
    exact ⟨renderPath st, by simp [canvas, hi], rfl, rfl, rfl⟩
  · intro h
    have hall : s.strokes.countP (fun st => !st.building) = s.strokes.length := by
      rw [List.countP_eq_length]
      intro st hst
      simp [h st hst]
    simp [canvas, hall]
  · cases hl : s.textLabel <;> simp [canvas, hl]
  · intro l hl
    simp [canvas, hl]

/-- Witness for `canvas_overlays`: one completed three-point stroke and the
label `"Hi"` at `(200, 300)`. -/
theorem canvas_overlays_witness :
    annotated.strokes[0]? =
        some { d := "M 10,10 L 30,30 L 50,50", color := "#FFFFFF", building := false } ∧
      (∀ st ∈ annotated.strokes, st.building = false) ∧
      annotated.textLabel = some { x := 200, y := 300, text := "Hi", color := "#FFFFFF" } ∧
      (∃ o : PathOverlay, (canvas "photo" sampleDims annotated).paths[0]? = some o ∧
        o.d = "M 10,10 L 30,30 L 50,50" ∧ o.stroke = "#FFFFFF" ∧ o.strokeWidth = 4) ∧
      (canvas "photo" sampleDims annotated).paths.length =
        annotated.strokes.countP (fun st => !st.building) ∧
      (canvas "photo" sampleDims annotated).label =
        some { left := 100, top := 280, color := "#FFFFFF", text := "Hi" } :=
  ⟨by decide, by decide, by decide,
    (canvas_overlays "photo" sampleDims annotated).2.1 0
      { d := "M 10,10 L 30,30 L 50,50", color := "#FFFFFF", building := false } (by decide),
    (canvas_overlays "photo" sampleDims annotated).2.2.1 (by decide),
    ((canvas_overlays "photo" sampleDims annotated).2.2.2.2
      { x := 200, y := 300, text := "Hi", color := "#FFFFFF" } (by decide)).trans (by decide)⟩

/-- Claim C13, as the code behaves on a concrete input: the stroke of the
gesture under way was created in white; after red is picked, the next
pointer-move stores the stroke in red. -/
theorem move_takes_current_colour_example :
    midGesture.strokes = [{ d := "M 10,10 L 30,30", color := "#FFFFFF", building := true }] ∧
      recoloured.strokes = midGesture.strokes ∧
      (panResponder.onPanResponderMove recoloured ⟨50, 50⟩).strokes =
        [{ d := "M 10,10 L 30,30 L 50,50", color := "#FF1744", building := true }] := by
  decide

/-- Claim C13, amended. When the last stroke is building, a pointer-move to `p`
replaces it by a building stroke with the extended path and the colour held by
`colorRef` at the time of the move, the strokes before it being kept. The colour
of the stroke therefore stays what it was when `colorRef` still holds it, and
becomes `c` when `updateColor(c)` has been called before the move. -/
theorem move_replaces_building_stroke {ν : Type} [JSNumber ν] (s : State ν)
    (base : List Stroke) (b : Stroke) (p : Point ν)
    (hs : s.strokes = base ++ [b]) (hb : b.building = true) :
    (panResponder.onPanResponderMove s p).strokes =
        base ++ [{ d := s.currentPath ++ lineTo p, color := s.colorRef, building := true }] ∧
      (b.color = s.colorRef →
        (panResponder.onPanResponderMove s p).strokes =
          base ++ [{ d := s.currentPath ++ lineTo p, color := b.color, building := true }]) ∧
      (∀ c : Color,
        (panResponder.onPanResponderMove (updateColor s c) p).strokes =
          base ++ [{ d := s.currentPath ++ lineTo p, color := c, building := true }]) := by
  have hmove : ∀ t : State ν, t.strokes = base ++ [b] →
      (panResponder.onPanResponderMove t p).strokes =
        base ++ [{ d := t.currentPath ++ lineTo p, color := t.colorRef, building := true }] := by
    intro t ht
    simp only [panResponder.onPanResponderMove, ht, lineTo]
    exact moveUpdater_append_building _ _ _ _ hb
  refine ⟨hmove s hs, ?_, ?_⟩
  · intro hc
    rw [hc]
    exact hmove s hs
  · intro c
    exact hmove (updateColor s c) hs

/-- Witness for `move_replaces_building_stroke`: the gesture under way in
`midGesture`, continued to `(50, 50)` with the colour unchanged. -/
theorem move_replaces_building_stroke_witness :
    midGesture.strokes =
        [] ++ [({ d := "M 10,10 L 30,30", color := "#FFFFFF", building := true } : Stroke)] ∧
      (panResponder.onPanResponderMove midGesture ⟨50, 50⟩).strokes =
        [] ++ [({ d := midGesture.currentPath ++ lineTo (⟨50, 50⟩ : Point Int),
                  color := "#FFFFFF", building := true } : Stroke)] :=
  ⟨by decide,
    (move_replaces_building_stroke midGesture []
      { d := "M 10,10 L 30,30", color := "#FFFFFF", building := true } ⟨50, 50⟩
      (by decide) rfl).2.1 (by decide)⟩

end Properties

end DoodleScreen
